import Mathlib

/-!
# Shallow embedding of `src/imagen_optimized.py`

The program walks a directory of images, re-encodes each one through an
external codec library (Pillow) and accumulates statistics.  The embedding
models:

* file names as character lists with pathlib's `suffix` / `with_suffix`
  semantics;
* the filesystem as a flat map from paths to file contents (character
  lists), so byte sizes are list lengths;
* the external codec as an abstract collaborator (`Codec`) whose `decode`
  and `encode` return `none` where Pillow would raise;
* Pillow's `Image.thumbnail` target-size computation with exact rational
  arithmetic in place of IEEE floats;
* each `try/except` body as a chain of fallible steps; reaching the
  `except` handler increments the error counter exactly as lines 121-124 do.
-/

namespace Imagen

/-- Split a file name at its last dot: `afterLastDot l = some (b, a)` means
`l = b ++ '.' :: a` with no dot occurring in `a`; `none` when `l` has no dot. -/
def afterLastDot : List Char → Option (List Char × List Char)
  | [] => none
  | c :: rest =>
    match afterLastDot rest with
    | some (b, a) => some (c :: b, a)
    | none => if c = '.' then some ([], rest) else none

/-- pathlib `PurePath.suffix` on a file name: the final dot-suffix including
the dot, or `[]`; a dot in first or last position yields no suffix. -/
def nameSuffix (name : List Char) : List Char :=
  match afterLastDot name with
  | some (b, a) => if b = [] ∨ a = [] then [] else '.' :: a
  | none => []

/-- pathlib `PurePath.with_suffix` on a file name: drop the current suffix
and append `s`. -/
def nameWithSuffix (name s : List Char) : List Char :=
  name.take (name.length - (nameSuffix name).length) ++ s

/-- A filesystem path: directory components plus a file name. -/
structure Path where
  dir : List String
  name : List Char
deriving DecidableEq

/-- pathlib `path.suffix`. -/
def Path.suffix (p : Path) : List Char := nameSuffix p.name

/-- pathlib `path.with_suffix(s)`. -/
def Path.withSuffix (p : Path) (s : List Char) : Path := ⟨p.dir, nameWithSuffix p.name s⟩

/-- Join `root / relative_path`: prepend a directory prefix to a relative path. -/
def joinRel (root : List String) (p : Path) : Path := ⟨root ++ p.dir, p.name⟩

/-- Line 53: `input_path.with_suffix(f'.backup{input_path.suffix}')`. -/
def backup_path (p : Path) : Path :=
  p.withSuffix ('.' :: "backup".toList ++ p.suffix)

/-- Pillow color modes relevant to the pipeline (line 66). -/
inductive Mode
  | RGB | RGBA | LA | P | L
deriving DecidableEq

/-- An abstract decoded image: dimensions and color mode. -/
structure Image where
  width : Nat
  height : Nat
  mode : Mode
deriving DecidableEq

/-- The target container formats of `get_output_format` (lines 32-42). -/
inductive Format
  | JPEG | PNG | WEBP
deriving DecidableEq

/-- The keyword arguments assembled for `img.save` (lines 82-105). -/
structure SaveKwargs where
  optimize : Bool
  format : Option Format
  quality : Option Int
  progressive : Option Bool
  method : Option Nat
deriving DecidableEq

/-- The external image library (Pillow) as an abstract collaborator:
`decode` models `Image.open` + pixel access (`none` where Pillow raises),
`encode` models `img.save`'s encoder (`none` where it raises), and
`exif_transpose` models `ImageOps.exif_transpose` (line 79). -/
structure Codec where
  decode : List Char → Option Image
  encode : Image → SaveKwargs → Option (List Char)
  exif_transpose : Image → Image

/-- Constructor state of `ImageOptimizer` (lines 14-18). -/
structure Config where
  quality : Int
  max_width : Int
  max_height : Int
  progressive : Bool
deriving DecidableEq

/-- The `self.stats` dictionary (lines 20-26). -/
structure Stats where
  processed : Nat
  skipped : Nat
  errors : Nat
  original_size : Nat
  optimized_size : Nat
deriving DecidableEq

/-- One success line printed at line 117: file name, the two byte sizes, and
the signed percentage printed as `{reduction:+.1f}%`. -/
structure Report where
  name : List Char
  original : Nat
  optimized : Nat
  delta : ℚ
deriving DecidableEq

/-- A flat filesystem: file contents (character lists) stored at paths. -/
def FS : Type := Path → Option (List Char)

/-- Point update of the filesystem. -/
def FS.update (fs : FS) (p : Path) (v : Option (List Char)) : FS :=
  fun q => if q = p then v else fs q

/-- Mutable context of one run: the filesystem, `self.stats`, and the
success report lines printed so far. -/
structure OptState where
  fs : FS
  stats : Stats
  reports : List Report

/-- Lowercased suffix, `filepath.suffix.lower()`. -/
def suffix_lower (p : Path) : List Char := p.suffix.map Char.toLower

/-- Line 19: `self.supported_formats`. -/
def supported_formats : List (List Char) :=
  [".jpg".toList, ".jpeg".toList, ".png".toList, ".webp".toList, ".bmp".toList, ".tiff".toList]

/-- Lines 28-30: `ImageOptimizer.is_image_file`. -/
def is_image_file (p : Path) : Bool :=
  decide (suffix_lower p ∈ supported_formats)

/-- Lines 32-42: `ImageOptimizer.get_output_format`. -/
def get_output_format (p : Path) : Format :=
  let ext := suffix_lower p
  if ext ∈ [".jpg".toList, ".jpeg".toList, ".bmp".toList, ".tiff".toList] then .JPEG
  else if ext = ".png".toList then .PNG
  else if ext = ".webp".toList then .WEBP
  else .JPEG

/-- Pillow's `round_aspect` helper inside `Image.thumbnail`, with exact
rationals: choose between floor and ceiling by the given key (floor winning
ties, as Python's `min` keeps the first argument), never going below 1. -/
def round_aspect (v : ℚ) (key : ℤ → ℚ) : ℤ :=
  max (if key ⌊v⌋ ≤ key ⌈v⌉ then ⌊v⌋ else ⌈v⌉) 1

/-- Pillow's `Image.thumbnail` target-size computation
(`preserve_aspect_ratio`), with float arithmetic replaced by exact
rationals.  `(w, h)` is the image size, `(x, y)` the requested box. -/
def thumbnail_size (w h : Nat) (x y : Int) : Nat × Nat :=
  if (w : ℤ) ≤ x ∧ (h : ℤ) ≤ y then (w, h)
  else
    let aspect : ℚ := (w : ℚ) / (h : ℚ)
    if aspect ≤ (x : ℚ) / (y : ℚ) then
      ((round_aspect ((y : ℚ) * aspect) fun n => |aspect - (n : ℚ) / (y : ℚ)|).toNat,
        y.toNat)
    else
      (x.toNat,
        (round_aspect ((x : ℚ) / aspect) fun n =>
          if n = 0 then 0 else |aspect - (x : ℚ) / (n : ℚ)|).toNat)

/-- Line 76: `img.thumbnail((max_width, max_height), LANCZOS)`, the in-place
resize to the computed target size; the color mode is preserved. -/
def thumbnail (img : Image) (x y : Int) : Image :=
  let s := thumbnail_size img.width img.height x y
  { img with width := s.1, height := s.2 }

/-- The guarded resize of lines 74-76: only when some dimension exceeds its
configured bound. -/
def resize_step (cfg : Config) (img : Image) : Image :=
  if cfg.max_width < (img.width : ℤ) ∨ cfg.max_height < (img.height : ℤ) then
    thumbnail img cfg.max_width cfg.max_height
  else img

/-- White-background compositing for JPEG targets (lines 66-72): alpha and
palette modes collapse onto an opaque RGB canvas of the same dimensions. -/
def convert_for_jpeg (fmt : Format) (img : Image) : Image :=
  if fmt = .JPEG ∧ (img.mode = .RGBA ∨ img.mode = .LA ∨ img.mode = .P) then
    { img with mode := .RGB }
  else img

/-- The two suffixes that keep a JPEG output path unchanged (line 91). -/
def jpeg_suffixes : List (List Char) := [".jpg".toList, ".jpeg".toList]

/-- The output-extension adjustment of lines 90-92: JPEG targets whose
output path does not already end in `.jpg`/`.jpeg` are renamed to `.jpg`. -/
def adjust_output (fmt : Format) (p : Path) : Path :=
  if fmt = .JPEG ∧ ¬ suffix_lower p ∈ jpeg_suffixes then
    p.withSuffix ".jpg".toList
  else p

/-- Lines 82-105: the `save_kwargs` dictionary assembled per format. -/
def save_kwargs (fmt : Format) (cfg : Config) : SaveKwargs :=
  match fmt with
  | .JPEG => ⟨true, some .JPEG, some cfg.quality, some cfg.progressive, none⟩
  | .PNG => ⟨true, some .PNG, none, none, none⟩
  | .WEBP => ⟨true, some .WEBP, some cfg.quality, none, some 6⟩

/-- Lines 51-56: the optional rename of the original into the backup path.
`none` models `os.rename` raising (the original is absent).  On success it
returns the effective input path to read from and the updated filesystem. -/
def backup_step (ip op : Path) (bk : Bool) (fs : FS) : Option (Path × FS) :=
  if bk ∧ op = ip then
    match fs (backup_path ip) with
    | some _ => some (ip, fs)
    | none =>
      match fs ip with
      | some c => some (backup_path ip, FS.update (FS.update fs ip none) (backup_path ip) (some c))
      | none => none
  else some (ip, fs)

/-- The `except` handler of lines 121-124: count one error and report
failure; the state accumulated before the exception is kept. -/
def fail_state (fs : FS) (stats : Stats) (reports : List Report) : OptState × Bool :=
  (⟨fs, { stats with errors := stats.errors + 1 }, reports⟩, false)

/-- Lines 44-124: `ImageOptimizer.optimize_image`.  The fallible steps, in
source order: backup rename, `os.path.getsize`, decode, encode/write, the
(dead in practice) re-read of the written size, and the division by zero in
the report line when the original size is zero.  Any failure jumps to
`fail_state` with the effects performed so far. -/
def optimize_image (codec : Codec) (cfg : Config) (input_path : Path)
    (output_path : Option Path) (backup : Bool) (st : OptState) : OptState × Bool :=
  let op := output_path.getD input_path
  match backup_step input_path op backup st.fs with
  | none => fail_state st.fs st.stats st.reports
  | some (ip, fs1) =>
    match fs1 ip with
    | none => fail_state fs1 st.stats st.reports
    | some content =>
      let original_size := content.length
      let stats1 := { st.stats with original_size := st.stats.original_size + original_size }
      match codec.decode content with
      | none => fail_state fs1 stats1 st.reports
      | some img0 =>
        let fmt := get_output_format ip
        let img3 := codec.exif_transpose (resize_step cfg (convert_for_jpeg fmt img0))
        let op2 := adjust_output fmt op
        match codec.encode img3 (save_kwargs fmt cfg) with
        | none => fail_state fs1 stats1 st.reports
        | some encoded =>
          let fs2 := FS.update fs1 op2 (some encoded)
          match fs2 op2 with
          | none => fail_state fs2 stats1 st.reports
          | some out_content =>
            let optimized_size := out_content.length
            let stats2 := { stats1 with
              optimized_size := stats1.optimized_size + optimized_size,
              processed := stats1.processed + 1 }
            if original_size = 0 then fail_state fs2 stats2 st.reports
            else
              (⟨fs2, stats2,
                st.reports ++ [⟨ip.name, original_size, optimized_size,
                  ((original_size : ℚ) - (optimized_size : ℚ)) / (original_size : ℚ) * 100⟩]⟩,
                true)

/-- One iteration of the loop of lines 160-172: compute the mirrored output
path when an output root is given, optimize, and count a skip on failure. -/
def optimize_step (codec : Codec) (cfg : Config) (src_root : List String)
    (out_root : Option (List String)) (bk : Bool) (st : OptState) (rel : Path) : OptState :=
  let r := optimize_image codec cfg (joinRel src_root rel)
    (out_root.map fun rt => joinRel rt rel) bk st
  if r.2 then r.1
  else { r.1 with stats := { r.1.stats with skipped := r.1.stats.skipped + 1 } }

/-- The whole loop of lines 160-172 over the discovered relative paths. -/
def optimize_files (codec : Codec) (cfg : Config) (src_root : List String)
    (out_root : Option (List String)) (bk : Bool) (rels : List Path) (st : OptState) : OptState :=
  rels.foldl (optimize_step codec cfg src_root out_root bk) st

/-- Fresh `self.stats` (lines 20-26). -/
def init_stats : Stats := ⟨0, 0, 0, 0, 0⟩

/-- Lines 134-176: `ImageOptimizer.optimize_directory`.  `dir_exists`
models the existence check on the target directory, `entries` the glob
result (paths relative to the source root) which is filtered by
`is_image_file`; the returned boolean is the function's return value. -/
def optimize_directory (codec : Codec) (cfg : Config) (dir_exists : Bool)
    (src_root : List String) (entries : List Path) (out_root : Option (List String))
    (bk : Bool) (st : OptState) : OptState × Bool :=
  if dir_exists = false then (st, false)
  else
    let image_files := entries.filter is_image_file
    if image_files = [] then (st, false)
    else (optimize_files codec cfg src_root out_root bk image_files st, true)

/-- The parsed command-line arguments (lines 209-247). -/
structure Args where
  directory : List String
  recursive : Bool
  quality : Int
  max_width : Int
  max_height : Int
  max_size : Option Int
  backup : Bool
  output : Option (List String)
  no_progressive : Bool

/-- The `if args.max_size:` override of lines 255-257, with Python
truthiness: both `None` and `0` leave the explicit width/height in place. -/
def apply_max_size (a : Args) : Args :=
  match a.max_size with
  | none => a
  | some v => if v = 0 then a else { a with max_width := v, max_height := v }

/-- Lines 254-292: `main` after the quality validation: apply the max-size
override, build the optimizer with fresh stats, run the directory, and turn
the returned boolean into the process exit code. -/
def main_process (codec : Codec) (a : Args) (dir_exists : Bool)
    (entries : List Path) (fs0 : FS) : Nat × OptState :=
  let a2 := apply_max_size a
  let cfg : Config := ⟨a2.quality, a2.max_width, a2.max_height, !a2.no_progressive⟩
  let r := optimize_directory codec cfg dir_exists a2.directory entries a2.output
    a2.backup ⟨fs0, init_stats, []⟩
  (if r.2 then 0 else 1, r.1)

/-- Lines 194-299: `main`; the quality validation of lines 250-252 happens
before anything touches the filesystem; an out-of-range quality exits with
code 1 and the state untouched. -/
def main_run (codec : Codec) (a : Args) (dir_exists : Bool)
    (entries : List Path) (fs0 : FS) : Nat × OptState :=
  if a.quality < 1 ∨ 100 < a.quality then (1, ⟨fs0, init_stats, []⟩)
  else main_process codec a dir_exists entries fs0


/-! ### Concrete fixtures for witnesses and counterexamples -/

/-- A well-behaved concrete codec: any nonempty content decodes to a small
10×10 RGB image; every encode yields the fixed 7-byte result `ENCODED`. -/
def ok_codec : Codec :=
  { decode := fun c => if c = [] then none else some ⟨10, 10, Mode.RGB⟩
    encode := fun _ _ => some "ENCODED".toList
    exif_transpose := fun i => i }

/-- A codec whose decode always raises. -/
def bad_codec : Codec :=
  { decode := fun _ => none
    encode := fun _ _ => none
    exif_transpose := fun i => i }

/-- The default configuration: quality 85, box 1920×1080, progressive. -/
def cfg0 : Config := ⟨85, 1920, 1080, true⟩

/-- The empty filesystem. -/
def fs_empty : FS := fun _ => none

/-! ### General lemmas about the embedded operations -/



theorem FS.update_self (fs : FS) (p : Path) (v : Option (List Char)) :
    FS.update fs p v p = v := by simp [FS.update]

theorem FS.update_ne (fs : FS) (p : Path) (v : Option (List Char)) {q : Path} (h : q ≠ p) :
    FS.update fs p v q = fs q := by simp [FS.update, h]

theorem afterLastDot_eq_some : ∀ {l b a : List Char},
    afterLastDot l = some (b, a) → l = b ++ '.' :: a := by
  intro l
  induction l with
  | nil => intro b a h; simp [afterLastDot] at h
  | cons c rest ih =>
    intro b a h
    simp only [afterLastDot] at h
    cases hr : afterLastDot rest with
    | some ba =>
      obtain ⟨b', a'⟩ := ba
      rw [hr] at h
      simp only [Option.some.injEq, Prod.mk.injEq] at h
      obtain ⟨hb, ha⟩ := h
      subst hb; subst ha
      have := ih hr
      rw [this]
      simp
    | none =>
      rw [hr] at h
      by_cases hc : c = '.'
      · rw [if_pos hc] at h
        simp only [Option.some.injEq, Prod.mk.injEq] at h
        obtain ⟨hb, ha⟩ := h
        subst hb; subst ha; subst hc
        simp
      · rw [if_neg hc] at h
        exact absurd h (by simp)

theorem nameSuffix_length_le (name : List Char) :
    (nameSuffix name).length ≤ name.length := by
  rcases h : afterLastDot name with _ | ⟨b, a⟩
  · simp [nameSuffix, h]
  · have he := afterLastDot_eq_some h
    simp only [nameSuffix, h]
    split
    · simp
    · rw [he]; simp [List.length_append]

theorem backup_path_ne (p : Path) : backup_path p ≠ p := by
  intro h
  have hlen := congrArg (fun q : Path => q.name.length) h
  have hk := nameSuffix_length_le p.name
  have h6 : ("backup".toList).length = 6 := rfl
  simp only [backup_path, Path.withSuffix, Path.suffix, nameWithSuffix, List.length_append,
    List.length_take, List.length_cons, h6] at hlen
  omega



theorem optimize_image_stats (codec : Codec) (cfg : Config) (ip : Path) (op : Option Path)
    (bk : Bool) (st : OptState) (hdec : codec.decode [] = none) :
    ((optimize_image codec cfg ip op bk st).2 = true ∧
      (optimize_image codec cfg ip op bk st).1.stats.processed = st.stats.processed + 1 ∧
      (optimize_image codec cfg ip op bk st).1.stats.errors = st.stats.errors ∧
      (optimize_image codec cfg ip op bk st).1.stats.skipped = st.stats.skipped) ∨
    ((optimize_image codec cfg ip op bk st).2 = false ∧
      (optimize_image codec cfg ip op bk st).1.stats.processed = st.stats.processed ∧
      (optimize_image codec cfg ip op bk st).1.stats.errors = st.stats.errors + 1 ∧
      (optimize_image codec cfg ip op bk st).1.stats.skipped = st.stats.skipped ∧
      (optimize_image codec cfg ip op bk st).1.stats.optimized_size = st.stats.optimized_size) := by
  unfold optimize_image
  cases hb : backup_step ip (op.getD ip) bk st.fs with
  | none => right; simp [hb, fail_state]
  | some pfs =>
    obtain ⟨ip2, fs1⟩ := pfs
    cases hc : fs1 ip2 with
    | none => right; simp [hb, hc, fail_state]
    | some content =>
      cases hd : codec.decode content with
      | none => right; simp [hb, hc, hd, fail_state]
      | some img0 =>
        have hcne : content ≠ [] := by
          rintro rfl; rw [hdec] at hd; exact Option.noConfusion hd
        have hlen : ¬ content.length = 0 := fun h => hcne (List.length_eq_zero.mp h)
        cases he : codec.encode
            (codec.exif_transpose (resize_step cfg (convert_for_jpeg (get_output_format ip2) img0)))
            (save_kwargs (get_output_format ip2) cfg) with
        | none => right; simp [hb, hc, hd, he, fail_state]
        | some encoded =>
          left
          simp [hb, hc, hd, he, fail_state, FS.update_self, hlen]



theorem optimize_step_sum (codec : Codec) (cfg : Config) (srcR : List String)
    (outR : Option (List String)) (bk : Bool) (st : OptState) (rel : Path)
    (hdec : codec.decode [] = none) :
    (optimize_step codec cfg srcR outR bk st rel).stats.processed +
      (optimize_step codec cfg srcR outR bk st rel).stats.errors =
    st.stats.processed + st.stats.errors + 1 := by
  unfold optimize_step
  rcases optimize_image_stats codec cfg (joinRel srcR rel) (outR.map fun rt => joinRel rt rel)
      bk st hdec with ⟨h2, hp, he, _⟩ | ⟨h2, hp, he, _, _⟩ <;>
    simp [h2, hp, he] <;> omega

theorem optimize_step_skip_inv (codec : Codec) (cfg : Config) (srcR : List String)
    (outR : Option (List String)) (bk : Bool) (st : OptState) (rel : Path)
    (hdec : codec.decode [] = none)
    (hinv : st.stats.skipped = st.stats.errors) :
    (optimize_step codec cfg srcR outR bk st rel).stats.skipped =
      (optimize_step codec cfg srcR outR bk st rel).stats.errors := by
  unfold optimize_step
  rcases optimize_image_stats codec cfg (joinRel srcR rel) (outR.map fun rt => joinRel rt rel)
      bk st hdec with ⟨h2, _, he, hs⟩ | ⟨h2, _, he, hs, _⟩ <;>
    simp [h2, he, hs] <;> omega

theorem optimize_files_sum (codec : Codec) (cfg : Config) (srcR : List String)
    (outR : Option (List String)) (bk : Bool) (hdec : codec.decode [] = none) :
    ∀ (rels : List Path) (st : OptState),
      (optimize_files codec cfg srcR outR bk rels st).stats.processed +
        (optimize_files codec cfg srcR outR bk rels st).stats.errors =
      st.stats.processed + st.stats.errors + rels.length
  | [], st => by simp [optimize_files]
  | rel :: rels, st => by
    have h1 := optimize_files_sum codec cfg srcR outR bk hdec rels
      (optimize_step codec cfg srcR outR bk st rel)
    have h2 := optimize_step_sum codec cfg srcR outR bk st rel hdec
    simp only [optimize_files, List.foldl_cons] at h1 ⊢
    rw [h1, h2, List.length_cons]
    omega

theorem optimize_files_skip_inv (codec : Codec) (cfg : Config) (srcR : List String)
    (outR : Option (List String)) (bk : Bool) (hdec : codec.decode [] = none) :
    ∀ (rels : List Path) (st : OptState), st.stats.skipped = st.stats.errors →
      (optimize_files codec cfg srcR outR bk rels st).stats.skipped =
        (optimize_files codec cfg srcR outR bk rels st).stats.errors
  | [], st, h => by simpa [optimize_files] using h
  | rel :: rels, st, h => by
    have h2 := optimize_step_skip_inv codec cfg srcR outR bk st rel hdec h
    have h1 := optimize_files_skip_inv codec cfg srcR outR bk hdec rels
      (optimize_step codec cfg srcR outR bk st rel) h2
    simpa [optimize_files, List.foldl_cons] using h1

theorem backup_step_not_inplace (ip op : Path) (bk : Bool) (fs : FS)
    (h : ¬(bk = true ∧ op = ip)) : backup_step ip op bk fs = some (ip, fs) := by
  unfold backup_step
  rw [if_neg]
  simpa using h

theorem optimize_image_frame (codec : Codec) (cfg : Config) (ip op0 : Path)
    (bk : Bool) (st : OptState) (hnb : ¬(bk = true ∧ op0 = ip)) :
    ∀ q : Path, q ≠ adjust_output (get_output_format ip) op0 →
      (optimize_image codec cfg ip (some op0) bk st).1.fs q = st.fs q := by
  intro q hq
  unfold optimize_image
  simp only [Option.getD_some, backup_step_not_inplace ip op0 bk st.fs hnb]
  cases hc : st.fs ip with
  | none => simp [hc, fail_state]
  | some content =>
    cases hd : codec.decode content with
    | none => simp [hc, hd, fail_state]
    | some img0 =>
      cases he : codec.encode
          (codec.exif_transpose (resize_step cfg (convert_for_jpeg (get_output_format ip) img0)))
          (save_kwargs (get_output_format ip) cfg) with
      | none => simp [hc, hd, he, fail_state]
      | some encoded =>
        simp only [hc, hd, he, FS.update_self]
        by_cases hz : content.length = 0 <;>
          simp [hz, fail_state, FS.update_ne _ _ _ hq]



theorem get_output_format_joinRel (root : List String) (p : Path) :
    get_output_format (joinRel root p) = get_output_format p := rfl

theorem suffix_lower_joinRel (root : List String) (p : Path) :
    suffix_lower (joinRel root p) = suffix_lower p := rfl

theorem adjust_output_joinRel (fmt : Format) (root : List String) (p : Path) :
    adjust_output fmt (joinRel root p) = joinRel root (adjust_output fmt p) := by
  unfold adjust_output
  rw [suffix_lower_joinRel]
  split <;> rfl

theorem optimize_files_frame_out (codec : Codec) (cfg : Config) (srcR outR : List String)
    (bk : Bool) (hdisj : ∀ q r : Path, joinRel outR q ≠ joinRel srcR r) :
    ∀ (rels : List Path) (st : OptState) (q : Path),
      (∀ rel ∈ rels, q ≠ joinRel outR (adjust_output (get_output_format rel) rel)) →
      (optimize_files codec cfg srcR (some outR) bk rels st).fs q = st.fs q
  | [], st, q, _ => rfl
  | rel :: rels, st, q, hq => by
    have hstep : (optimize_step codec cfg srcR (some outR) bk st rel).fs q = st.fs q := by
      unfold optimize_step
      have hnb : ¬(bk = true ∧ joinRel outR rel = joinRel srcR rel) := by
        rintro ⟨-, h⟩; exact hdisj rel rel h
      have hframe := optimize_image_frame codec cfg (joinRel srcR rel) (joinRel outR rel) bk st hnb q
      rw [get_output_format_joinRel, adjust_output_joinRel] at hframe
      have hq1 := hq rel (List.mem_cons_self rel rels)
      have := hframe hq1
      simp only [Option.map_some']
      split <;> simpa using this
    have hrest := optimize_files_frame_out codec cfg srcR outR bk hdisj rels
      (optimize_step codec cfg srcR (some outR) bk st rel) q
      (fun r hr => hq r (List.mem_cons_of_mem rel hr))
    calc (optimize_files codec cfg srcR (some outR) bk (rel :: rels) st).fs q
        = (optimize_files codec cfg srcR (some outR) bk rels
            (optimize_step codec cfg srcR (some outR) bk st rel)).fs q := rfl
      _ = (optimize_step codec cfg srcR (some outR) bk st rel).fs q := hrest
      _ = st.fs q := hstep



theorem round_aspect_le (v : ℚ) (key : ℤ → ℚ) (B : ℤ) (hB : 1 ≤ B) (hvB : v ≤ (B : ℚ)) :
    round_aspect v key ≤ B := by
  unfold round_aspect
  apply max_le _ hB
  split
  · exact le_trans (Int.floor_le_ceil v) (Int.ceil_le.mpr hvB)
  · exact Int.ceil_le.mpr hvB

theorem one_le_round_aspect (v : ℚ) (key : ℤ → ℚ) : 1 ≤ round_aspect v key :=
  le_max_right _ 1

theorem round_aspect_near (v : ℚ) (key : ℤ → ℚ) (hv : 0 < v) :
    |((round_aspect v key : ℤ) : ℚ) - v| ≤ 1 := by
  unfold round_aspect
  have hfl : v - 1 < (⌊v⌋ : ℚ) := Int.sub_one_lt_floor v
  have hfu : ((⌊v⌋ : ℤ) : ℚ) ≤ v := Int.floor_le v
  have hflt : v < (⌊v⌋ : ℚ) + 1 := Int.lt_floor_add_one v
  have hcl : v ≤ ((⌈v⌉ : ℤ) : ℚ) := Int.le_ceil v
  have hcu : ((⌈v⌉ : ℤ) : ℚ) < v + 1 := Int.ceil_lt_add_one v
  split
  · rcases max_cases ⌊v⌋ (1 : ℤ) with ⟨hm, hge⟩ | ⟨hm, hlt⟩
    · rw [hm, abs_le]
      constructor <;> linarith
    · rw [hm, abs_le]
      have h0 : (⌊v⌋ : ℤ) ≤ 0 := by omega
      have h0q : ((⌊v⌋ : ℤ) : ℚ) ≤ 0 := by exact_mod_cast h0
      constructor
      · push_cast; linarith
      · push_cast; linarith
  · have h1 : (1 : ℤ) ≤ ⌈v⌉ := Int.ceil_pos.mpr hv
    rw [max_eq_left h1, abs_le]
    constructor <;> linarith

theorem thumbnail_size_spec (w h : Nat) (x y : Int)
    (hw : 1 ≤ w) (hh : 1 ≤ h) (hx : 1 ≤ x) (hy : 1 ≤ y)
    (hbig : ¬((w : ℤ) ≤ x ∧ (h : ℤ) ≤ y)) :
    ((thumbnail_size w h x y).1 : ℤ) ≤ x ∧
    ((thumbnail_size w h x y).2 : ℤ) ≤ y ∧
    (|((thumbnail_size w h x y).1 : ℤ) * h - ((thumbnail_size w h x y).2 : ℤ) * w| ≤ (h : ℤ) ∨
     |((thumbnail_size w h x y).1 : ℤ) * h - ((thumbnail_size w h x y).2 : ℤ) * w| ≤ (w : ℤ)) := by
  have hwq : (0 : ℚ) < (w : ℚ) := by exact_mod_cast Nat.lt_of_lt_of_le Nat.zero_lt_one hw
  have hhq : (0 : ℚ) < (h : ℚ) := by exact_mod_cast Nat.lt_of_lt_of_le Nat.zero_lt_one hh
  have hxq : (0 : ℚ) < (x : ℚ) := by exact_mod_cast (by omega : (0 : ℤ) < x)
  have hyq : (0 : ℚ) < (y : ℚ) := by exact_mod_cast (by omega : (0 : ℤ) < y)
  unfold thumbnail_size
  rw [if_neg hbig]
  by_cases hc : ((w : ℚ) / (h : ℚ)) ≤ (x : ℚ) / (y : ℚ)
  · rw [if_pos hc]
    set v : ℚ := (y : ℚ) * ((w : ℚ) / (h : ℚ)) with hvdef
    set key : ℤ → ℚ := fun n => |(w : ℚ) / (h : ℚ) - (n : ℚ) / (y : ℚ)| with hkey
    have hv0 : 0 < v := mul_pos hyq (div_pos hwq hhq)
    have hvx : v ≤ (x : ℚ) := by
      have h1 := mul_le_mul_of_nonneg_left hc (le_of_lt hyq)
      have h2 : (y : ℚ) * ((x : ℚ) / (y : ℚ)) = (x : ℚ) := by
        rw [mul_comm, div_mul_cancel₀ _ (ne_of_gt hyq)]
      rw [h2] at h1
      exact h1
    have hA_le : round_aspect v key ≤ x := round_aspect_le v key x hx hvx
    have hA_pos : (1 : ℤ) ≤ round_aspect v key := one_le_round_aspect v key
    have hA_nn : (0 : ℤ) ≤ round_aspect v key := by omega
    have hnear := round_aspect_near v key hv0
    have htn : (((round_aspect v key).toNat : ℕ) : ℤ) = round_aspect v key :=
      Int.toNat_of_nonneg hA_nn
    have hty : ((y.toNat : ℕ) : ℤ) = y := Int.toNat_of_nonneg (by omega)
    refine ⟨?_, ?_, Or.inl ?_⟩
    · simpa [htn] using hA_le
    · simp [hty]
    · -- |A * h - y * w| ≤ h
      simp only [htn, hty]
      have hmul : |((round_aspect v key : ℤ) : ℚ) - v| * (h : ℚ) ≤ 1 * (h : ℚ) :=
        mul_le_mul_of_nonneg_right hnear (le_of_lt hhq)
      rw [one_mul, ← abs_of_pos hhq, ← abs_mul, sub_mul] at hmul
      have hvh : v * (h : ℚ) = (y : ℚ) * (w : ℚ) := by
        rw [hvdef, mul_assoc, div_mul_cancel₀ _ (ne_of_gt hhq)]
      rw [hvh, abs_of_pos hhq] at hmul
      have hcast : |((round_aspect v key : ℤ) : ℚ) * (h : ℚ) - (y : ℚ) * (w : ℚ)| =
          ((|round_aspect v key * (h : ℤ) - y * (w : ℤ)| : ℤ) : ℚ) := by
        push_cast [Int.cast_abs]
        ring_nf
      rw [hcast] at hmul
      exact_mod_cast hmul
  · rw [if_neg hc]
    push_neg at hc
    set aspect : ℚ := (w : ℚ) / (h : ℚ) with haspdef
    have hasp : 0 < aspect := div_pos hwq hhq
    set v : ℚ := (x : ℚ) / aspect with hvdef
    set key : ℤ → ℚ := fun n => if n = 0 then 0 else |aspect - (x : ℚ) / (n : ℚ)| with hkey
    have hv0 : 0 < v := div_pos hxq hasp
    have hvy : v ≤ (y : ℚ) := by
      have h1 : (x : ℚ) < aspect * (y : ℚ) := (div_lt_iff₀ hyq).mp hc
      have h2 : v < (y : ℚ) := by
        rw [hvdef, div_lt_iff₀ hasp, mul_comm]
        exact h1
      exact le_of_lt h2
    have hB_le : round_aspect v key ≤ y := round_aspect_le v key y hy hvy
    have hB_pos : (1 : ℤ) ≤ round_aspect v key := one_le_round_aspect v key
    have hnear := round_aspect_near v key hv0
    have htn : (((round_aspect v key).toNat : ℕ) : ℤ) = round_aspect v key :=
      Int.toNat_of_nonneg (by omega)
    have htx : ((x.toNat : ℕ) : ℤ) = x := Int.toNat_of_nonneg (by omega)
    refine ⟨?_, ?_, Or.inr ?_⟩
    · simp [htx]
    · simpa [htn] using hB_le
    · simp only [htn, htx]
      have hmul : |((round_aspect v key : ℤ) : ℚ) - v| * (w : ℚ) ≤ 1 * (w : ℚ) :=
        mul_le_mul_of_nonneg_right hnear (le_of_lt hwq)
      rw [one_mul, ← abs_of_pos hwq, ← abs_mul, sub_mul] at hmul
      have hvw : v * (w : ℚ) = (x : ℚ) * (h : ℚ) := by
        rw [hvdef, haspdef, div_div_eq_mul_div, div_mul_cancel₀ _ (ne_of_gt hwq)]
      rw [hvw, abs_of_pos hwq] at hmul
      have hcast : |((round_aspect v key : ℤ) : ℚ) * (w : ℚ) - (x : ℚ) * (h : ℚ)| =
          ((|x * (h : ℤ) - round_aspect v key * (w : ℤ)| : ℤ) : ℚ) := by
        push_cast [Int.cast_abs]
        rw [abs_sub_comm]
        try ring_nf
      rw [hcast] at hmul
      exact_mod_cast hmul


/-! ### The claims -/


/-- Claim C6: for a decoded image of size `W×H` and a configured box
`(maxW, maxH)`, the resize step is skipped exactly when `W ≤ maxW` and
`H ≤ maxH` (output dimensions then equal `(W, H)`); otherwise the result
fits in the box and preserves the aspect ratio within one pixel of
rounding (one output dimension is within one pixel of the exact
aspect-matching value). -/
theorem resize_step_spec (cfg : Config) (img : Image)
    (hw : 1 ≤ img.width) (hh : 1 ≤ img.height)
    (hx : 1 ≤ cfg.max_width) (hy : 1 ≤ cfg.max_height) :
    (((img.width : ℤ) ≤ cfg.max_width ∧ (img.height : ℤ) ≤ cfg.max_height) →
      resize_step cfg img = img) ∧
    (¬((img.width : ℤ) ≤ cfg.max_width ∧ (img.height : ℤ) ≤ cfg.max_height) →
      ((resize_step cfg img).width : ℤ) ≤ cfg.max_width ∧
      ((resize_step cfg img).height : ℤ) ≤ cfg.max_height ∧
      (|((resize_step cfg img).width : ℤ) * (img.height : ℤ) -
          ((resize_step cfg img).height : ℤ) * (img.width : ℤ)| ≤ (img.height : ℤ) ∨
       |((resize_step cfg img).width : ℤ) * (img.height : ℤ) -
          ((resize_step cfg img).height : ℤ) * (img.width : ℤ)| ≤ (img.width : ℤ))) := by
  constructor
  · intro hsmall
    unfold resize_step
    rw [if_neg (by omega)]
  · intro hbig
    unfold resize_step
    rw [if_pos (by omega)]
    have hs := thumbnail_size_spec img.width img.height cfg.max_width cfg.max_height
      hw hh hx hy hbig
    simpa [thumbnail] using hs

/-- Witness for C6 at a 3000×2000 image and a 1200×1200 box. -/
theorem resize_step_spec_witness :
    ((((3000 : ℕ) : ℤ) ≤ (1200 : ℤ) ∧ ((2000 : ℕ) : ℤ) ≤ (1200 : ℤ)) →
      resize_step ⟨85, 1200, 1200, true⟩ ⟨3000, 2000, Mode.RGB⟩ = ⟨3000, 2000, Mode.RGB⟩) ∧
    (¬(((3000 : ℕ) : ℤ) ≤ (1200 : ℤ) ∧ ((2000 : ℕ) : ℤ) ≤ (1200 : ℤ)) →
      ((resize_step ⟨85, 1200, 1200, true⟩ ⟨3000, 2000, Mode.RGB⟩).width : ℤ) ≤ 1200 ∧
      ((resize_step ⟨85, 1200, 1200, true⟩ ⟨3000, 2000, Mode.RGB⟩).height : ℤ) ≤ 1200 ∧
      (|((resize_step ⟨85, 1200, 1200, true⟩ ⟨3000, 2000, Mode.RGB⟩).width : ℤ) * ((2000 : ℕ) : ℤ) -
          ((resize_step ⟨85, 1200, 1200, true⟩ ⟨3000, 2000, Mode.RGB⟩).height : ℤ) * ((3000 : ℕ) : ℤ)| ≤ ((2000 : ℕ) : ℤ) ∨
       |((resize_step ⟨85, 1200, 1200, true⟩ ⟨3000, 2000, Mode.RGB⟩).width : ℤ) * ((2000 : ℕ) : ℤ) -
          ((resize_step ⟨85, 1200, 1200, true⟩ ⟨3000, 2000, Mode.RGB⟩).height : ℤ) * ((3000 : ℕ) : ℤ)| ≤ ((3000 : ℕ) : ℤ))) :=
  resize_step_spec ⟨85, 1200, 1200, true⟩ ⟨3000, 2000, Mode.RGB⟩
    (by decide) (by decide) (by decide) (by decide)

/-- Claim C7: every quality in `1..100` is accepted and the run proceeds to
the processing stage; every quality outside that range makes `main` exit
with code 1 before anything touches the filesystem, which is returned
unchanged. -/
theorem main_quality_validation (codec : Codec) (a : Args) (dx : Bool)
    (entries : List Path) (fs0 : FS) :
    ((a.quality < 1 ∨ 100 < a.quality) →
      main_run codec a dx entries fs0 = (1, ⟨fs0, init_stats, []⟩)) ∧
    ((1 ≤ a.quality ∧ a.quality ≤ 100) →
      main_run codec a dx entries fs0 = main_process codec a dx entries fs0) := by
  constructor
  · intro h
    unfold main_run
    rw [if_pos h]
  · intro h
    unfold main_run
    rw [if_neg (by omega)]

/-- Witness for C7: quality 0 is rejected with exit code 1 and the
filesystem untouched; quality 85 proceeds to the processing stage. -/
theorem main_quality_validation_witness :
    main_run bad_codec ⟨[], false, 0, 1920, 1080, none, false, none, false⟩ true [] fs_empty
      = (1, ⟨fs_empty, init_stats, []⟩) ∧
    main_run bad_codec ⟨[], false, 85, 1920, 1080, none, false, none, false⟩ true [] fs_empty
      = main_process bad_codec ⟨[], false, 85, 1920, 1080, none, false, none, false⟩ true [] fs_empty :=
  ⟨(main_quality_validation bad_codec ⟨[], false, 0, 1920, 1080, none, false, none, false⟩
      true [] fs_empty).1 (by decide),
   (main_quality_validation bad_codec ⟨[], false, 85, 1920, 1080, none, false, none, false⟩
      true [] fs_empty).2 (by decide)⟩

/-- Claim C8, counterexample: `--max-size 0` is a supplied integer value,
but Python's `if args.max_size:` treats `0` as falsy, so the override does
not happen and the effective box stays `1920×1080`, not `0×0`. -/
theorem max_size_zero_counterexample :
    (⟨[], false, 85, 1920, 1080, some 0, false, none, false⟩ : Args).max_size = some 0 ∧
    (apply_max_size ⟨[], false, 85, 1920, 1080, some 0, false, none, false⟩).max_width = 1920 ∧
    (apply_max_size ⟨[], false, 85, 1920, 1080, some 0, false, none, false⟩).max_height = 1080 ∧
    (1920 : ℤ) ≠ 0 := by
  refine ⟨rfl, rfl, rfl, by decide⟩

/-- Claim C8 (amended): for every nonzero integer supplied to `--max-size`,
both the effective max width and max height equal that value; a supplied
`0` is ignored because of Python truthiness. -/
theorem max_size_override (a : Args) (v : ℤ) (hms : a.max_size = some v) (hv : v ≠ 0) :
    (apply_max_size a).max_width = v ∧ (apply_max_size a).max_height = v := by
  unfold apply_max_size
  simp only [hms]
  rw [if_neg hv]
  exact ⟨rfl, rfl⟩

/-- Witness for C8 at `--max-size 1200`. -/
theorem max_size_override_witness :
    (apply_max_size ⟨[], false, 85, 1920, 1080, some 1200, false, none, false⟩).max_width = 1200 ∧
    (apply_max_size ⟨[], false, 85, 1920, 1080, some 1200, false, none, false⟩).max_height = 1200 :=
  max_size_override ⟨[], false, 85, 1920, 1080, some 1200, false, none, false⟩ 1200 rfl (by decide)



/-- Claim C1, counterexample: a 3-byte file whose decode fails.  The failure
path increments `errors` (and the loop will increment `skipped`), but
`original_size` was already increased from 0 to 3 before the decode -- the
size totals after the failed file do NOT equal the totals before it. -/
theorem failure_totals_counterexample :
    (optimize_image bad_codec cfg0 ⟨[], "photo.jpg".toList⟩ none false
      ⟨FS.update fs_empty ⟨[], "photo.jpg".toList⟩ (some "ABC".toList), init_stats, []⟩).2 = false ∧
    (optimize_image bad_codec cfg0 ⟨[], "photo.jpg".toList⟩ none false
      ⟨FS.update fs_empty ⟨[], "photo.jpg".toList⟩ (some "ABC".toList), init_stats, []⟩).1.stats.errors = 1 ∧
    (optimize_image bad_codec cfg0 ⟨[], "photo.jpg".toList⟩ none false
      ⟨FS.update fs_empty ⟨[], "photo.jpg".toList⟩ (some "ABC".toList), init_stats, []⟩).1.stats.original_size = 3 ∧
    init_stats.original_size = 0 := by
  refine ⟨?_, ?_, ?_, rfl⟩ <;> decide

/-- Claim C1 (amended): a failed per-file optimization increments
`errors` and `skipped` by one and leaves `optimized_size` and `processed`
unchanged; `original_size`, however, has already been increased by the
failed file's size whenever the failure happens after the size read (as in
any decode/resize/encode/write failure). -/
theorem failure_stats (codec : Codec) (cfg : Config) (src_root : List String)
    (out_root : Option (List String)) (bk : Bool) (st : OptState) (rel : Path)
    (hdec : codec.decode [] = none)
    (hfail : (optimize_image codec cfg (joinRel src_root rel)
        (out_root.map fun rt => joinRel rt rel) bk st).2 = false) :
    (optimize_step codec cfg src_root out_root bk st rel).stats.errors = st.stats.errors + 1 ∧
    (optimize_step codec cfg src_root out_root bk st rel).stats.skipped = st.stats.skipped + 1 ∧
    (optimize_step codec cfg src_root out_root bk st rel).stats.processed = st.stats.processed ∧
    (optimize_step codec cfg src_root out_root bk st rel).stats.optimized_size
      = st.stats.optimized_size := by
  rcases optimize_image_stats codec cfg (joinRel src_root rel)
      (out_root.map fun rt => joinRel rt rel) bk st hdec with
    ⟨h2, _, _, _⟩ | ⟨h2, hp, he, hs, ho⟩
  · rw [h2] at hfail; exact absurd hfail (by simp)
  · unfold optimize_step
    simp [h2, hp, he, hs, ho]

/-- Witness for C1 (amended) at a concrete decode failure. -/
theorem failure_stats_witness :
    bad_codec.decode [] = none ∧
    (optimize_image bad_codec cfg0 (joinRel [] ⟨[], "photo.jpg".toList⟩)
      ((none : Option (List String)).map fun rt => joinRel rt ⟨[], "photo.jpg".toList⟩) false
      ⟨FS.update fs_empty ⟨[], "photo.jpg".toList⟩ (some "ABC".toList), init_stats, []⟩).2 = false ∧
    (optimize_step bad_codec cfg0 [] none false
      ⟨FS.update fs_empty ⟨[], "photo.jpg".toList⟩ (some "ABC".toList), init_stats, []⟩
      ⟨[], "photo.jpg".toList⟩).stats.errors = init_stats.errors + 1 ∧
    (optimize_step bad_codec cfg0 [] none false
      ⟨FS.update fs_empty ⟨[], "photo.jpg".toList⟩ (some "ABC".toList), init_stats, []⟩
      ⟨[], "photo.jpg".toList⟩).stats.skipped = init_stats.skipped + 1 :=
  ⟨rfl, by decide,
   (failure_stats bad_codec cfg0 [] none false
      ⟨FS.update fs_empty ⟨[], "photo.jpg".toList⟩ (some "ABC".toList), init_stats, []⟩
      ⟨[], "photo.jpg".toList⟩ rfl (by decide)).1,
   (failure_stats bad_codec cfg0 [] none false
      ⟨FS.update fs_empty ⟨[], "photo.jpg".toList⟩ (some "ABC".toList), init_stats, []⟩
      ⟨[], "photo.jpg".toList⟩ rfl (by decide)).2.1⟩

/-- Claim C2: when a batch run over `n` discovered candidate image files
completes (`optimize_directory` returns `True`), the final stats satisfy
`processed + errors = n`, whatever the per-file outcomes. -/
theorem stats_partition (codec : Codec) (cfg : Config) (dx : Bool)
    (src_root : List String) (entries : List Path) (out_root : Option (List String))
    (bk : Bool) (fs0 : FS) (hdec : codec.decode [] = none)
    (hrun : (optimize_directory codec cfg dx src_root entries out_root bk
        ⟨fs0, init_stats, []⟩).2 = true) :
    (optimize_directory codec cfg dx src_root entries out_root bk
        ⟨fs0, init_stats, []⟩).1.stats.processed +
      (optimize_directory codec cfg dx src_root entries out_root bk
        ⟨fs0, init_stats, []⟩).1.stats.errors =
    (entries.filter is_image_file).length := by
  unfold optimize_directory at hrun ⊢
  by_cases hdx : dx = false
  · rw [if_pos hdx] at hrun
    exact absurd hrun (by simp)
  · rw [if_neg hdx] at hrun ⊢
    by_cases hni : entries.filter is_image_file = []
    · simp only [hni, if_pos rfl] at hrun
      exact absurd hrun (by simp)
    · simp only [if_neg hni]
      have := optimize_files_sum codec cfg src_root out_root bk hdec
        (entries.filter is_image_file) ⟨fs0, init_stats, []⟩
      simpa [init_stats] using this

/-- Witness for C2: one valid file, one corrupt file, `1 + 1 = 2`. -/
theorem stats_partition_witness :
    ok_codec.decode [] = none ∧
    (optimize_directory ok_codec cfg0 true ["d"]
      [⟨[], "a.jpg".toList⟩, ⟨[], "b.png".toList⟩] none false
      ⟨FS.update fs_empty ⟨["d"], "a.jpg".toList⟩ (some "ABCD".toList), init_stats, []⟩).2 = true ∧
    (optimize_directory ok_codec cfg0 true ["d"]
      [⟨[], "a.jpg".toList⟩, ⟨[], "b.png".toList⟩] none false
      ⟨FS.update fs_empty ⟨["d"], "a.jpg".toList⟩ (some "ABCD".toList), init_stats, []⟩).1.stats.processed +
    (optimize_directory ok_codec cfg0 true ["d"]
      [⟨[], "a.jpg".toList⟩, ⟨[], "b.png".toList⟩] none false
      ⟨FS.update fs_empty ⟨["d"], "a.jpg".toList⟩ (some "ABCD".toList), init_stats, []⟩).1.stats.errors =
      ([⟨[], "a.jpg".toList⟩, ⟨[], "b.png".toList⟩].filter is_image_file).length :=
  ⟨rfl, by decide,
   stats_partition ok_codec cfg0 true ["d"]
     [⟨[], "a.jpg".toList⟩, ⟨[], "b.png".toList⟩] none false
     (FS.update fs_empty ⟨["d"], "a.jpg".toList⟩ (some "ABCD".toList)) rfl (by decide)⟩

/-- Claim C10: after every batch run driven by `optimize_directory` (from a
fresh optimizer whose counters start at zero), `skipped = errors`: each
failure increments both exactly once, successes touch neither. -/
theorem skipped_eq_errors (codec : Codec) (cfg : Config) (dx : Bool)
    (src_root : List String) (entries : List Path) (out_root : Option (List String))
    (bk : Bool) (fs0 : FS) (hdec : codec.decode [] = none) :
    (optimize_directory codec cfg dx src_root entries out_root bk
        ⟨fs0, init_stats, []⟩).1.stats.skipped =
      (optimize_directory codec cfg dx src_root entries out_root bk
        ⟨fs0, init_stats, []⟩).1.stats.errors := by
  unfold optimize_directory
  by_cases hdx : dx = false
  · rw [if_pos hdx]
    rfl
  · rw [if_neg hdx]
    by_cases hni : entries.filter is_image_file = []
    · simp only [hni, if_pos rfl]
      rfl
    · simp only [if_neg hni]
      exact optimize_files_skip_inv codec cfg src_root out_root bk hdec
        (entries.filter is_image_file) ⟨fs0, init_stats, []⟩ rfl

/-- Witness for C10 at a run with one success and one failure. -/
theorem skipped_eq_errors_witness :
    ok_codec.decode [] = none ∧
    (optimize_directory ok_codec cfg0 true ["d"]
      [⟨[], "a.jpg".toList⟩, ⟨[], "b.png".toList⟩] none false
      ⟨FS.update fs_empty ⟨["d"], "b.png".toList⟩ (some "ABCD".toList), init_stats, []⟩).1.stats.skipped =
    (optimize_directory ok_codec cfg0 true ["d"]
      [⟨[], "a.jpg".toList⟩, ⟨[], "b.png".toList⟩] none false
      ⟨FS.update fs_empty ⟨["d"], "b.png".toList⟩ (some "ABCD".toList), init_stats, []⟩).1.stats.errors :=
  ⟨rfl,
   skipped_eq_errors ok_codec cfg0 true ["d"]
     [⟨[], "a.jpg".toList⟩, ⟨[], "b.png".toList⟩] none false
     (FS.update fs_empty ⟨["d"], "b.png".toList⟩ (some "ABCD".toList)) rfl⟩

/-- Claim C9: in an in-place run with backup requested and no pre-existing
backup, a failure after the backup rename (here: the decode raises) leaves
the original path gone; its content survives only at the derived backup
path, nothing restores the original name, and the error is counted. -/
theorem backup_failure_no_restore (codec : Codec) (cfg : Config) (p : Path) (c : List Char)
    (fs0 : FS) (s0 : Stats) (rep0 : List Report)
    (hfp : fs0 p = some c) (hbp : fs0 (backup_path p) = none)
    (hdec : codec.decode c = none) :
    (optimize_image codec cfg p none true ⟨fs0, s0, rep0⟩).2 = false ∧
    (optimize_image codec cfg p none true ⟨fs0, s0, rep0⟩).1.fs p = none ∧
    (optimize_image codec cfg p none true ⟨fs0, s0, rep0⟩).1.fs (backup_path p) = some c ∧
    (∀ q : Path, q ≠ p → q ≠ backup_path p →
      (optimize_image codec cfg p none true ⟨fs0, s0, rep0⟩).1.fs q = fs0 q) ∧
    (optimize_image codec cfg p none true ⟨fs0, s0, rep0⟩).1.stats.errors = s0.errors + 1 := by
  have hb1 : backup_step p p true fs0 = some (backup_path p,
      FS.update (FS.update fs0 p none) (backup_path p) (some c)) := by
    simp [backup_step, hbp, hfp]
  have hfs1 : (FS.update (FS.update fs0 p none) (backup_path p) (some c)) (backup_path p)
      = some c := FS.update_self _ _ _
  have hrun : optimize_image codec cfg p none true ⟨fs0, s0, rep0⟩ =
      fail_state (FS.update (FS.update fs0 p none) (backup_path p) (some c))
        { s0 with original_size := s0.original_size + c.length } rep0 := by
    unfold optimize_image
    simp only [Option.getD_none, hb1, hfs1, hdec]
  rw [hrun]
  refine ⟨rfl, ?_, hfs1, ?_, rfl⟩
  · show (FS.update (FS.update fs0 p none) (backup_path p) (some c)) p = none
    rw [FS.update_ne _ _ _ (Ne.symm (backup_path_ne p)), FS.update_self]
  · intro q hq hqb
    show (FS.update (FS.update fs0 p none) (backup_path p) (some c)) q = fs0 q
    rw [FS.update_ne _ _ _ hqb, FS.update_ne _ _ _ hq]

/-- Witness for C9 at a concrete corrupt file with backup. -/
theorem backup_failure_no_restore_witness :
    (optimize_image bad_codec cfg0 ⟨[], "img.jpg".toList⟩ none true
      ⟨FS.update fs_empty ⟨[], "img.jpg".toList⟩ (some "XY".toList), init_stats, []⟩).2 = false ∧
    (optimize_image bad_codec cfg0 ⟨[], "img.jpg".toList⟩ none true
      ⟨FS.update fs_empty ⟨[], "img.jpg".toList⟩ (some "XY".toList), init_stats, []⟩).1.fs
        ⟨[], "img.jpg".toList⟩ = none ∧
    (optimize_image bad_codec cfg0 ⟨[], "img.jpg".toList⟩ none true
      ⟨FS.update fs_empty ⟨[], "img.jpg".toList⟩ (some "XY".toList), init_stats, []⟩).1.fs
        (backup_path ⟨[], "img.jpg".toList⟩) = some "XY".toList :=
  have h := backup_failure_no_restore bad_codec cfg0 ⟨[], "img.jpg".toList⟩ "XY".toList
    (FS.update fs_empty ⟨[], "img.jpg".toList⟩ (some "XY".toList)) init_stats []
    (by decide) (by decide) rfl
  ⟨h.1, h.2.1, h.2.2.1⟩



theorem reduction_sign (o m : ℕ) (ho : ¬ o = 0) :
    (0 < ((o : ℚ) - (m : ℚ)) / (o : ℚ) * 100 ↔ m < o) ∧
    (((o : ℚ) - (m : ℚ)) / (o : ℚ) * 100 < 0 ↔ o < m) := by
  have hoq : (0 : ℚ) < (o : ℚ) := by exact_mod_cast Nat.pos_of_ne_zero ho
  constructor
  · rw [div_mul_eq_mul_div, lt_div_iff₀ hoq, zero_mul]
    constructor
    · intro h1
      by_contra hcon
      push_neg at hcon
      have h2 : (o : ℚ) ≤ (m : ℚ) := by exact_mod_cast hcon
      nlinarith
    · intro h1
      have h2 : (m : ℚ) < (o : ℚ) := by exact_mod_cast h1
      nlinarith
  · rw [div_mul_eq_mul_div, div_lt_iff₀ hoq, zero_mul]
    constructor
    · intro h1
      by_contra hcon
      push_neg at hcon
      have h2 : (m : ℚ) ≤ (o : ℚ) := by exact_mod_cast hcon
      nlinarith
    · intro h1
      have h2 : (o : ℚ) < (m : ℚ) := by exact_mod_cast h1
      nlinarith

/-- Claim C3 (amended): every successfully processed file appends exactly one
report line whose signed percentage is the REDUCTION: it is positive exactly
when the optimized size is smaller than the original, and negative exactly
when the file grew. -/
theorem report_delta_sign (codec : Codec) (cfg : Config) (ip : Path) (op : Option Path)
    (bk : Bool) (st : OptState)
    (hok : (optimize_image codec cfg ip op bk st).2 = true) :
    ∃ rep : Report,
      (optimize_image codec cfg ip op bk st).1.reports = st.reports ++ [rep] ∧
      (0 < rep.delta ↔ rep.optimized < rep.original) ∧
      (rep.delta < 0 ↔ rep.original < rep.optimized) := by
  unfold optimize_image at hok ⊢
  cases hb : backup_step ip (op.getD ip) bk st.fs with
  | none => simp [hb, fail_state] at hok
  | some pfs =>
    obtain ⟨ip2, fs1⟩ := pfs
    cases hc : fs1 ip2 with
    | none => simp [hb, hc, fail_state] at hok
    | some content =>
      cases hd : codec.decode content with
      | none => simp [hb, hc, hd, fail_state] at hok
      | some img0 =>
        cases he : codec.encode
            (codec.exif_transpose (resize_step cfg (convert_for_jpeg (get_output_format ip2) img0)))
            (save_kwargs (get_output_format ip2) cfg) with
        | none => simp [hb, hc, hd, he, fail_state] at hok
        | some encoded =>
          by_cases hz : content.length = 0
          · simp [hb, hc, hd, he, FS.update_self, hz, fail_state] at hok
          · refine ⟨⟨ip2.name, content.length, encoded.length,
              ((content.length : ℚ) - (encoded.length : ℚ)) / (content.length : ℚ) * 100⟩,
              ?_, ?_, ?_⟩
            · simp [hb, hc, hd, he, hz, FS.update_self]
            · exact (reduction_sign content.length encoded.length hz).1
            · exact (reduction_sign content.length encoded.length hz).2

/-- Witness for C3 (amended) at a concrete successful run. -/
theorem report_delta_sign_witness :
    (optimize_image ok_codec cfg0 ⟨[], "pic.jpg".toList⟩ none false
      ⟨FS.update fs_empty ⟨[], "pic.jpg".toList⟩ (some "ABCD".toList), init_stats, []⟩).2 = true ∧
    ∃ rep : Report,
      (optimize_image ok_codec cfg0 ⟨[], "pic.jpg".toList⟩ none false
        ⟨FS.update fs_empty ⟨[], "pic.jpg".toList⟩ (some "ABCD".toList), init_stats, []⟩).1.reports =
        ([] : List Report) ++ [rep] ∧
      (0 < rep.delta ↔ rep.optimized < rep.original) ∧
      (rep.delta < 0 ↔ rep.original < rep.optimized) :=
  ⟨by decide,
   report_delta_sign ok_codec cfg0 ⟨[], "pic.jpg".toList⟩ none false
     ⟨FS.update fs_empty ⟨[], "pic.jpg".toList⟩ (some "ABCD".toList), init_stats, []⟩ (by decide)⟩



/-- Claim C3, counterexample: a successful optimization where the file GREW
from 4 bytes to 7 bytes prints the delta `-75.0%`: the printed signed delta
is negative on a size increase, while the claim requires a positive delta to
mean an increase. -/
theorem report_delta_sign_counterexample :
    (optimize_image ok_codec cfg0 ⟨[], "grow.jpg".toList⟩ none false
      ⟨FS.update fs_empty ⟨[], "grow.jpg".toList⟩ (some "ABCD".toList), init_stats, []⟩).1.reports =
      [⟨"grow.jpg".toList, 4, 7, -75⟩] ∧
    (4 : ℕ) < 7 ∧ (-75 : ℚ) < 0 := by
  have h : (optimize_image ok_codec cfg0 ⟨[], "grow.jpg".toList⟩ none false
      ⟨FS.update fs_empty ⟨[], "grow.jpg".toList⟩ (some "ABCD".toList), init_stats, []⟩).1.reports =
      [⟨"grow.jpg".toList, 4, 7, (((4 : ℕ) : ℚ) - ((7 : ℕ) : ℚ)) / ((4 : ℕ) : ℚ) * 100⟩] := rfl
  refine ⟨?_, by decide, by norm_num⟩
  rw [h]
  norm_num



/-- Claim C4 (amended): with an output root disjoint from the source tree,
every filesystem change of the batch loop happens under the output root at
the source file's relative path, EXCEPT that JPEG-target files whose suffix
is not `.jpg`/`.jpeg` (i.e. `.bmp`/`.tiff` inputs) are written with their
extension changed to `.jpg`; paths under the source root are never
modified. -/
theorem mirrored_output (codec : Codec) (cfg : Config) (src_root out_root : List String)
    (bk : Bool) (rels : List Path) (st : OptState)
    (hdisj : ∀ q r : Path, joinRel out_root q ≠ joinRel src_root r) :
    (∀ r : Path,
      (optimize_files codec cfg src_root (some out_root) bk rels st).fs (joinRel src_root r)
        = st.fs (joinRel src_root r)) ∧
    (∀ q : Path,
      (optimize_files codec cfg src_root (some out_root) bk rels st).fs q ≠ st.fs q →
      ∃ rel ∈ rels, q = joinRel out_root (adjust_output (get_output_format rel) rel)) := by
  constructor
  · intro r
    exact optimize_files_frame_out codec cfg src_root out_root bk hdisj rels st
      (joinRel src_root r)
      (fun rel _ h => hdisj (adjust_output (get_output_format rel) rel) r h.symm)
  · intro q hq
    by_contra hno
    push_neg at hno
    exact hq (optimize_files_frame_out codec cfg src_root out_root bk hdisj rels st q hno)

/-- Witness for C4: a concrete mirrored run leaves the source file's bytes
in place. -/
theorem mirrored_output_witness :
    (optimize_files ok_codec cfg0 ["s"] (some ["o"]) false [⟨[], "a.jpg".toList⟩]
      ⟨FS.update fs_empty ⟨["s"], "a.jpg".toList⟩ (some "ABCD".toList), init_stats, []⟩).fs
        (joinRel ["s"] ⟨[], "a.jpg".toList⟩) =
      (⟨FS.update fs_empty ⟨["s"], "a.jpg".toList⟩ (some "ABCD".toList), init_stats, []⟩ :
        OptState).fs (joinRel ["s"] ⟨[], "a.jpg".toList⟩) :=
  (mirrored_output ok_codec cfg0 ["s"] ["o"] false [⟨[], "a.jpg".toList⟩]
    ⟨FS.update fs_empty ⟨["s"], "a.jpg".toList⟩ (some "ABCD".toList), init_stats, []⟩
    (fun q r h => by
      have hd := congrArg Path.dir h
      simp only [joinRel] at hd
      have : "o" = "s" := List.head_eq_of_cons_eq hd
      exact absurd this (by decide))).1 ⟨[], "a.jpg".toList⟩

/-- Claim C4, counterexample: mirroring a `.bmp` source writes the output at
the relative path with extension `.jpg`, not at the source's relative path
`a.bmp`: nothing exists at the mirrored `a.bmp` path after the run. -/
theorem mirrored_output_counterexample :
    (optimize_files ok_codec cfg0 ["s"] (some ["o"]) false [⟨[], "a.bmp".toList⟩]
      ⟨FS.update fs_empty ⟨["s"], "a.bmp".toList⟩ (some "ABCD".toList), init_stats, []⟩).fs
        ⟨["o"], "a.bmp".toList⟩ = none ∧
    ((optimize_files ok_codec cfg0 ["s"] (some ["o"]) false [⟨[], "a.bmp".toList⟩]
      ⟨FS.update fs_empty ⟨["s"], "a.bmp".toList⟩ (some "ABCD".toList), init_stats, []⟩).fs
        ⟨["o"], "a.jpg".toList⟩).isSome = true ∧
    ((⟨[], "a.bmp".toList⟩ : Path).name ≠ (⟨[], "a.jpg".toList⟩ : Path).name) := by
  refine ⟨?_, ?_, ?_⟩ <;> decide



/-- Claim C5 (amended): for an in-place `--backup` run on a path whose
in-place output path is itself (suffix already `.jpg`/`.jpeg`/`.png`/`.webp`),
two consecutive optimizations create exactly one backup: the first renames
the original to the backup path and succeeds; the second finds the backup
present, renames nothing, leaves the backup bytes untouched, succeeds
without raising, and writes only to the original path.  (For `.bmp`/`.tiff`
inputs the in-place output goes to a `.jpg`-renamed path and the second
optimization of the original path fails instead; see the counterexample.) -/
theorem backup_at_most_once (codec : Codec) (cfg : Config) (p : Path) (c : List Char)
    (fs0 : FS) (s0 : Stats) (rep0 : List Report)
    (hdec : ∀ s : List Char, s ≠ [] → (codec.decode s).isSome = true)
    (henc : ∀ (i : Image) (k : SaveKwargs), ∃ e : List Char, codec.encode i k = some e ∧ e ≠ [])
    (hfp : fs0 p = some c) (hc : c ≠ []) (hbp : fs0 (backup_path p) = none)
    (hadj1 : adjust_output (get_output_format (backup_path p)) p = p)
    (hadj2 : adjust_output (get_output_format p) p = p) :
    (optimize_image codec cfg p none true ⟨fs0, s0, rep0⟩).2 = true ∧
    (optimize_image codec cfg p none true ⟨fs0, s0, rep0⟩).1.fs (backup_path p) = some c ∧
    (optimize_image codec cfg p none true
        (optimize_image codec cfg p none true ⟨fs0, s0, rep0⟩).1).2 = true ∧
    (optimize_image codec cfg p none true
        (optimize_image codec cfg p none true ⟨fs0, s0, rep0⟩).1).1.fs (backup_path p) = some c ∧
    (∀ q : Path, q ≠ p →
      (optimize_image codec cfg p none true
          (optimize_image codec cfg p none true ⟨fs0, s0, rep0⟩).1).1.fs q =
        (optimize_image codec cfg p none true ⟨fs0, s0, rep0⟩).1.fs q) := by
  obtain ⟨i1, hi1⟩ := Option.isSome_iff_exists.mp (hdec c hc)
  have hb1 : backup_step p p true fs0 = some (backup_path p,
      FS.update (FS.update fs0 p none) (backup_path p) (some c)) := by
    simp [backup_step, hbp, hfp]
  have hfs1bp : (FS.update (FS.update fs0 p none) (backup_path p) (some c)) (backup_path p)
      = some c := FS.update_self _ _ _
  obtain ⟨e1, he1, he1ne⟩ := henc
    (codec.exif_transpose (resize_step cfg (convert_for_jpeg (get_output_format (backup_path p)) i1)))
    (save_kwargs (get_output_format (backup_path p)) cfg)
  have hz1 : ¬ c.length = 0 := fun h => hc (List.length_eq_zero.mp h)
  have hrun1 : optimize_image codec cfg p none true ⟨fs0, s0, rep0⟩ =
      (⟨FS.update (FS.update (FS.update fs0 p none) (backup_path p) (some c)) p (some e1),
        ⟨s0.processed + 1, s0.skipped, s0.errors, s0.original_size + c.length,
          s0.optimized_size + e1.length⟩,
        rep0 ++ [⟨(backup_path p).name, c.length, e1.length,
          ((c.length : ℚ) - (e1.length : ℚ)) / (c.length : ℚ) * 100⟩]⟩, true) := by
    unfold optimize_image
    simp only [Option.getD_none, hb1, hfs1bp, hi1, hadj1, he1, FS.update_self, hz1, if_false]
  have hfs2bp : (FS.update (FS.update (FS.update fs0 p none) (backup_path p) (some c)) p
      (some e1)) (backup_path p) = some c := by
    rw [FS.update_ne _ _ _ (backup_path_ne p)]
    exact hfs1bp
  have hb2 : backup_step p p true
      (FS.update (FS.update (FS.update fs0 p none) (backup_path p) (some c)) p (some e1)) =
      some (p, FS.update (FS.update (FS.update fs0 p none) (backup_path p) (some c)) p (some e1)) := by
    unfold backup_step
    rw [if_pos ⟨rfl, rfl⟩]
    simp only [hfs2bp]
  have hfs2p : (FS.update (FS.update (FS.update fs0 p none) (backup_path p) (some c)) p
      (some e1)) p = some e1 := FS.update_self _ _ _
  obtain ⟨i2, hi2⟩ := Option.isSome_iff_exists.mp (hdec e1 he1ne)
  obtain ⟨e2, he2, he2ne⟩ := henc
    (codec.exif_transpose (resize_step cfg (convert_for_jpeg (get_output_format p) i2)))
    (save_kwargs (get_output_format p) cfg)
  have hz2 : ¬ e1.length = 0 := fun h => he1ne (List.length_eq_zero.mp h)
  have hrun2 : optimize_image codec cfg p none true
      (optimize_image codec cfg p none true ⟨fs0, s0, rep0⟩).1 =
      (⟨FS.update (FS.update (FS.update (FS.update fs0 p none) (backup_path p) (some c)) p
          (some e1)) p (some e2),
        ⟨s0.processed + 1 + 1, s0.skipped, s0.errors,
          s0.original_size + c.length + e1.length,
          s0.optimized_size + e1.length + e2.length⟩,
        (rep0 ++ [⟨(backup_path p).name, c.length, e1.length,
          ((c.length : ℚ) - (e1.length : ℚ)) / (c.length : ℚ) * 100⟩]) ++
          [⟨p.name, e1.length, e2.length,
            ((e1.length : ℚ) - (e2.length : ℚ)) / (e1.length : ℚ) * 100⟩]⟩, true) := by
    rw [hrun1]
    unfold optimize_image
    simp only [Option.getD_none, hb2, hfs2p, hi2, hadj2, he2, FS.update_self, hz2, if_false]
  refine ⟨?_, ?_, ?_, ?_, ?_⟩
  · rw [hrun1]
  · rw [hrun1]
    exact hfs2bp
  · rw [hrun2]
  · rw [hrun2]
    show (FS.update _ p (some e2)) (backup_path p) = some c
    rw [FS.update_ne _ _ _ (backup_path_ne p)]
    exact hfs2bp
  · intro q hq
    rw [hrun2, hrun1]
    show (FS.update _ p (some e2)) q = _
    rw [FS.update_ne _ _ _ hq]



/-- Witness for C5 (amended) at a concrete `.jpg` path: both runs succeed
and the backup keeps the original bytes. -/
theorem backup_at_most_once_witness :
    (optimize_image ok_codec cfg0 ⟨[], "img.jpg".toList⟩ none true
      ⟨FS.update fs_empty ⟨[], "img.jpg".toList⟩ (some "AB".toList), init_stats, []⟩).2 = true ∧
    (optimize_image ok_codec cfg0 ⟨[], "img.jpg".toList⟩ none true
      ⟨FS.update fs_empty ⟨[], "img.jpg".toList⟩ (some "AB".toList), init_stats, []⟩).1.fs
        (backup_path ⟨[], "img.jpg".toList⟩) = some "AB".toList ∧
    (optimize_image ok_codec cfg0 ⟨[], "img.jpg".toList⟩ none true
      (optimize_image ok_codec cfg0 ⟨[], "img.jpg".toList⟩ none true
        ⟨FS.update fs_empty ⟨[], "img.jpg".toList⟩ (some "AB".toList), init_stats, []⟩).1).2 = true ∧
    (optimize_image ok_codec cfg0 ⟨[], "img.jpg".toList⟩ none true
      (optimize_image ok_codec cfg0 ⟨[], "img.jpg".toList⟩ none true
        ⟨FS.update fs_empty ⟨[], "img.jpg".toList⟩ (some "AB".toList), init_stats, []⟩).1).1.fs
        (backup_path ⟨[], "img.jpg".toList⟩) = some "AB".toList :=
  have h := backup_at_most_once ok_codec cfg0 ⟨[], "img.jpg".toList⟩ "AB".toList
    (FS.update fs_empty ⟨[], "img.jpg".toList⟩ (some "AB".toList)) init_stats []
    (fun s hs => by simp [ok_codec, hs])
    (fun i k => ⟨"ENCODED".toList, rfl, by decide⟩)
    (by decide) (by decide) (by decide) (by decide) (by decide)
  ⟨h.1, h.2.1, h.2.2.1, h.2.2.2.1⟩

/-- Claim C5, counterexample: for an in-place `--backup` run on `scan.bmp`,
the first optimization renames the original to `scan.backup.bmp` and writes
its output to `scan.jpg`; the second optimization of the same path finds
the backup present (so it reads the original name), but nothing exists at
`scan.bmp` any more, so the second optimize step FAILS (returns failure and
counts an error) instead of succeeding as the claim states. -/
theorem backup_at_most_once_counterexample :
    (optimize_image ok_codec cfg0 ⟨[], "scan.bmp".toList⟩ none true
      ⟨FS.update fs_empty ⟨[], "scan.bmp".toList⟩ (some "ABCD".toList), init_stats, []⟩).2
      = true ∧
    (optimize_image ok_codec cfg0 ⟨[], "scan.bmp".toList⟩ none true
      (optimize_image ok_codec cfg0 ⟨[], "scan.bmp".toList⟩ none true
        ⟨FS.update fs_empty ⟨[], "scan.bmp".toList⟩ (some "ABCD".toList), init_stats, []⟩).1).2
      = false ∧
    (optimize_image ok_codec cfg0 ⟨[], "scan.bmp".toList⟩ none true
      (optimize_image ok_codec cfg0 ⟨[], "scan.bmp".toList⟩ none true
        ⟨FS.update fs_empty ⟨[], "scan.bmp".toList⟩ (some "ABCD".toList), init_stats, []⟩).1).1.stats.errors
      = 1 := by
  refine ⟨?_, ?_, ?_⟩ <;> decide


end Imagen
